import Mathlib

set_option autoImplicit false
set_option maxRecDepth 8192

namespace Reasypub

/-! Shallow embedding of the reasypub chapter-segmentation and EPUB-rendering core
(`src/lib.rs`, `src/conversion.rs`, `src/epubworker.rs`, `src/epubworker/render.rs`,
`src/epubworker/utils.rs`). Rust strings are modelled as Lean `String` / `List Char`;
byte indices of the source become character indices (all indices used by the code fall
on character boundaries, so the two views agree). -/

/-- The Unicode `White_Space` code points: the set accepted by Rust
`char::is_whitespace` and by the `\s` class of the `regex` crate. -/
def isWsChar (c : Char) : Bool :=
  let n := c.toNat
  n == 0x20 || n == 0x09 || n == 0x0A || n == 0x0B || n == 0x0C || n == 0x0D ||
  n == 0x85 || n == 0xA0 || n == 0x1680 || (0x2000 ≤ n && n ≤ 0x200A) ||
  n == 0x2028 || n == 0x2029 || n == 0x202F || n == 0x205F || n == 0x3000

/-- Model of Rust `str::trim_start`. -/
def trimStartL (cs : List Char) : List Char := cs.dropWhile isWsChar

/-- Model of Rust `str::trim_end`. -/
def trimEndL (cs : List Char) : List Char := (cs.reverse.dropWhile isWsChar).reverse

/-- Model of Rust `str::trim`. -/
def trimL (cs : List Char) : List Char := trimEndL (trimStartL cs)

def rustTrim (s : String) : String := String.mk (trimL s.toList)

def rustTrimStart (s : String) : String := String.mk (trimStartL s.toList)

def rustTrimEnd (s : String) : String := String.mk (trimEndL s.toList)

/-- Split a character list at every `'\n'`, keeping empty segments (like
`str::split('\n')`). Always returns at least one segment. -/
def splitNlL : List Char → List (List Char)
  | [] => [[]]
  | c :: rest =>
    match splitNlL rest with
    | [] => [[]]
    | h :: t => if c = '\n' then [] :: h :: t else (c :: h) :: t

/-- Model of Rust `str::lines`: split at `'\n'`, drop the final empty segment
(present exactly when the string is empty or ends in `'\n'`), and strip one
trailing `'\r'` from each line. -/
def rustLines (s : String) : List String :=
  let pieces := splitNlL s.toList
  let pieces := if pieces.getLast? = some [] then pieces.dropLast else pieces
  pieces.map (fun l => String.mk (if l.getLast? = some '\r' then l.dropLast else l))

/-- Model of Rust `char::to_ascii_lowercase`. -/
def asciiLowerChar (c : Char) : Char :=
  if c.toNat ≥ 65 ∧ c.toNat ≤ 90 then Char.ofNat (c.toNat + 32) else c

/-- Model of Rust `str::to_ascii_lowercase`. -/
def asciiLower (s : String) : String := String.mk (s.toList.map asciiLowerChar)

/-- Model of Rust `str::starts_with` on a string pattern. -/
def strStarts (s p : String) : Bool := p.toList.isPrefixOf s.toList

def strIntercalate (sep : String) : List String → String
  | [] => ""
  | [a] => a
  | a :: rest => a ++ sep ++ strIntercalate sep rest

/-- Structure `ChapterDraft` from `src/lib.rs`. -/
structure ChapterDraft where
  title : String
  content : String
deriving DecidableEq, Repr

/-- Constructor `ChapterDraft::from_raw` from `src/lib.rs`: the first line (or the literal
fallback when the raw text has no lines), trimmed, becomes the title; the
remaining lines joined by `'\n'` become the content. -/
def ChapterDraft.from_raw (raw : String) : ChapterDraft :=
  let ls := rustLines raw
  { title := rustTrim (ls.headD "Untitled Chapter"),
    content := strIntercalate "\n" (ls.drop 1) }

/-- The normalization applied by both split strategies: delete every `'\r'` and
U+3000 (the `clean` regex `[\r\u{3000}]+` replaced by the empty string),
then trim. -/
def cleanL (cs : List Char) : List Char :=
  trimL (cs.filter (fun c => !(c == '\r' || c == '\u3000')))

def cleanText (s : String) : String := String.mk (cleanL s.toList)

/-- The fixed structural markers shared by the built-in Chinese regex and the
heuristic classifier (in source order). -/
def titleSpecials : List String :=
  ["序章", "序言", "序", "楔子", "引子", "前言", "后记", "尾声", "终章", "番外", "外传", "附录"]

/-- The marker array of `is_chapter_title_line`. -/
def simpleMarkers : List Char := ['章', '回', '节', '集', '卷', '部', '篇']

/-- The Chinese numeral string of `is_chapter_title_line`. -/
def cnNumerals : List Char := "一二三四五六七八九十零〇○百千万两".toList

/-- Full-width digits `'０'..='９'` (U+FF10..U+FF19). -/
def isFullWidthDigit (c : Char) : Bool := 0xFF10 ≤ c.toNat && c.toNat ≤ 0xFF19

/-- Function `TextProcessor::is_chapter_title_line` from `src/lib.rs`. -/
def is_chapter_title_line (line : String) : Bool :=
  let cs := line.toList
  if cs.isEmpty then false
  else if 60 < cs.length then false
  else if titleSpecials.any (fun s => line == s || strStarts line s) then true
  else if cs.headD ' ' == '第' && simpleMarkers.any (fun m => cs.contains m) then true
  else if cs.headD ' ' == '卷' then
    (cs.drop 1).any (fun ch => ch.isDigit || isFullWidthDigit ch || cnNumerals.contains ch)
  else false

/-- One step of the line loop in `TextProcessor::split_by_simple_rules`: the state is
(chapters emitted so far, current chapter buffer). -/
def simpleStep (st : List String × String) (line : String) : List String × String :=
  let trimmed := rustTrim line
  if is_chapter_title_line trimmed then
    (if rustTrim st.2 ≠ "" then st.1 ++ [rustTrim st.2] else st.1, trimmed ++ "\n")
  else
    (st.1, st.2 ++ trimmed ++ "\n")

/-- Function `TextProcessor::split_by_simple_rules` from `src/lib.rs`. -/
def split_by_simple_rules (text : String) : List String :=
  let t := cleanText text
  let st := (rustLines t).foldl simpleStep ([], "")
  if rustTrim st.2 ≠ "" then st.1 ++ [rustTrim st.2] else st.1

/-- A compiled boundary pattern, modelled by its match attempt: given the haystack
and a start position, the length of the (leftmost-first) match starting there. -/
def Matcher : Type := List Char → Nat → Option Nat

/-- Whether the multi-line anchor `^` of the `regex` crate holds at `pos` in `cs`. -/
def isLineStart (cs : List Char) (pos : Nat) : Bool :=
  pos == 0 || cs.getD (pos - 1) ' ' == '\n'

/-- Length matched by a trailing `[^\n]*`: everything up to the next newline. -/
def countToEol (l : List Char) : Nat := (l.takeWhile (fun c => !(c == '\n'))).length

/-- The digit class `[0-9０-９一二三四五六七八九十零〇○百千万两]` of the built-in
Chinese pattern. -/
def isCnPatternDigit (c : Char) : Bool :=
  c.isDigit || isFullWidthDigit c || cnNumerals.contains c

/-- The marker class `[章节回部节集卷]` of the built-in Chinese pattern. -/
def regexMarkers : List Char := ['章', '节', '回', '部', '集', '卷']

/-- Whether one of the three alternatives of the built-in Chinese pattern matches at
the head of `l` (after `^\s*`). All alternatives then extend with `[^\n]*` to the end
of the line. The digit run is greedy; digits, markers and the special markers have
pairwise disjoint first characters, so the leftmost-first search of the `regex` crate is
deterministic here. -/
def cnAltOk : List Char → Bool
  | '第' :: rest =>
    let nums := rest.takeWhile isCnPatternDigit
    !nums.isEmpty && (match rest.drop nums.length with
      | m :: _ => regexMarkers.contains m
      | [] => false)
  | '卷' :: rest => !(rest.takeWhile isCnPatternDigit).isEmpty
  | l => titleSpecials.any (fun s => s.toList.isPrefixOf l)

/-- The built-in Chinese chapter pattern
`(?m)^\s*(?:第[..]+[章节回部节集卷][^\n]*|卷[..]+[^\n]*|(?:序章|..|附录)[^\n]*)`
from `Pattern::to_regex` in `src/lib.rs`. A match must start where `^` holds; `\s*`
then consumes the maximal whitespace run (no alternative starts with whitespace). -/
def chineseMatchLen : Matcher := fun cs pos =>
  if isLineStart cs pos then
    let l := cs.drop pos
    let ws := (l.takeWhile isWsChar).length
    let l2 := l.drop ws
    if cnAltOk l2 then some (ws + countToEol l2) else none
  else none

/-- The built-in English chapter pattern `(?m)^\s*Chapter\s*[0-9]+[^\n]*` from
`Pattern::to_regex` in `src/lib.rs`. -/
def englishMatchLen : Matcher := fun cs pos =>
  if isLineStart cs pos then
    let l := cs.drop pos
    let ws := (l.takeWhile isWsChar).length
    let l2 := l.drop ws
    if "Chapter".toList.isPrefixOf l2 then
      let l3 := l2.drop 7
      let ws2 := (l3.takeWhile isWsChar).length
      let l4 := l3.drop ws2
      let digits := (l4.takeWhile Char.isDigit).length
      if digits ≠ 0 then some (ws + 7 + ws2 + digits + countToEol (l4.drop digits))
      else none
    else none
  else none

/-- The fallback pattern `.*` returned by `Pattern::to_regex` for `SimpleRules`
(never used for splitting: `split_by_pattern` dispatches on `SimpleRules` first). -/
def matchAllLen : Matcher := fun cs pos =>
  if pos ≤ cs.length then some (countToEol (cs.drop pos)) else none

/-- Leftmost match search from `pos` (fuel-bounded scan over start positions),
modelling `Regex::find` / the stepping of `find_iter`. -/
def findFromAux (m : Matcher) (cs : List Char) : Nat → Nat → Option (Nat × Nat)
  | _, 0 => none
  | pos, fuel + 1 =>
    match m cs pos with
    | some len => some (pos, pos + len)
    | none => if pos < cs.length then findFromAux m cs (pos + 1) fuel else none

def findFrom (m : Matcher) (cs : List Char) (pos : Nat) : Option (Nat × Nat) :=
  findFromAux m cs pos (cs.length + 1 - pos)

/-- All non-overlapping matches in textual order, modelling `Regex::find_iter`
(an empty match advances the scan by one position, as in the `regex` crate). -/
def findIterAux (m : Matcher) (cs : List Char) : Nat → Nat → List (Nat × Nat)
  | _, 0 => []
  | pos, fuel + 1 =>
    match findFrom m cs pos with
    | none => []
    | some (s, e) => (s, e) :: findIterAux m cs (if s < e then e else e + 1) fuel

def findIter (m : Matcher) (cs : List Char) : List (Nat × Nat) :=
  findIterAux m cs 0 (cs.length + 1)

/-- Slice `t[a..b]` on character indices. -/
def sliceL (cs : List Char) (a b : Nat) : List Char := (cs.take b).drop a

/-- State of the match loop in `TextProcessor::split_by_regex`. -/
structure SplitAcc where
  result : List (List Char)
  lastEnd : Nat

/-- One iteration of the `find_iter` loop of `TextProcessor::split_by_regex`.
Note that the scan for the next boundary runs on the fresh slice `t[e..]`, so the
`^` anchor also holds at the start of that slice, exactly as in the source. -/
def splitStep (m : Matcher) (t : List Char) (st : SplitAcc) (mt : Nat × Nat) : SplitAcc :=
  let s := mt.1
  let e := mt.2
  let res1 :=
    if st.result.isEmpty && decide (0 < s) then
      let preface := trimL (sliceL t 0 s)
      if !preface.isEmpty then st.result ++ [preface] else st.result
    else st.result
  let nextMatch :=
    match findFrom m (t.drop e) 0 with
    | some (ms, _) => e + ms
    | none => t.length
  let chapter := trimL (sliceL t s nextMatch)
  let res2 := if !chapter.isEmpty then res1 ++ [chapter] else res1
  ⟨res2, nextMatch⟩

/-- Function `TextProcessor::split_by_regex` from `src/lib.rs`. -/
def split_by_regex (m : Matcher) (text : String) : List String :=
  let t := cleanL text.toList
  let st := (findIter m t).foldl (splitStep m t) ⟨[], 0⟩
  let res :=
    if st.lastEnd < t.length then
      let remaining := trimL (t.drop st.lastEnd)
      if !remaining.isEmpty then st.result ++ [remaining] else st.result
    else st.result
  res.map String.mk

/-- Enum `Pattern` from `src/lib.rs`; a custom pattern carries its compiled matcher. -/
inductive Pattern where
  | ChineseChapter : Pattern
  | EnglishChapter : Pattern
  | SimpleRules : Pattern
  | Custom : Matcher → Pattern

def Pattern.toMatcher : Pattern → Matcher
  | .ChineseChapter => chineseMatchLen
  | .EnglishChapter => englishMatchLen
  | .SimpleRules => matchAllLen
  | .Custom m => m

/-- Function `TextProcessor::split_by_pattern`. -/
def split_by_pattern (p : Pattern) (text : String) : List String :=
  match p with
  | .SimpleRules => split_by_simple_rules text
  | _ => split_by_regex p.toMatcher text

/-- Function `TextProcessor::split_to_drafts`. -/
def split_to_drafts (p : Pattern) (text : String) : List ChapterDraft :=
  (split_by_pattern p text).map ChapterDraft.from_raw


/-! ### `src/epubworker/render.rs` -/

/-- Function `escape_html`, one character: the five special characters become entities. -/
def escChar (c : Char) : List Char :=
  if c = '&' then "&amp;".toList
  else if c = '<' then "&lt;".toList
  else if c = '>' then "&gt;".toList
  else if c = '"' then "&quot;".toList
  else if c = '\'' then "&#39;".toList
  else [c]

def escListL : List Char → List Char
  | [] => []
  | c :: cs => escChar c ++ escListL cs

/-- Function `escape_html` from `src/epubworker/render.rs`. -/
def escape_html (input : String) : String := String.mk (escListL input.toList)

/-- Model of Rust `str::split_whitespace` (maximal non-whitespace runs). -/
def splitWsAux : List Char → List Char → List String
  | [], cur => if cur.isEmpty then [] else [String.mk cur.reverse]
  | c :: rest, cur =>
    if isWsChar c then
      (if cur.isEmpty then [] else [String.mk cur.reverse]) ++ splitWsAux rest []
    else splitWsAux rest (c :: cur)

def splitWhitespace (s : String) : List String := splitWsAux s.toList []

/-- Index of the first occurrence of a character (Rust `str::find(char)`), in
character positions. -/
def charIdxAux (c : Char) : List Char → Nat → Option Nat
  | [], _ => none
  | x :: rest, i => if x == c then some i else charIdxAux c rest (i + 1)

def charIdx (s : String) (c : Char) : Option Nat := charIdxAux c s.toList 0

def strDropChars (s : String) (n : Nat) : String := String.mk (s.toList.drop n)

def strSliceChars (s : String) (a b : Nat) : String := String.mk (sliceL s.toList a b)

def strEndsWith (s p : String) : Bool := p.toList.reverse.isPrefixOf s.toList.reverse

/-- Function `split_title_line` from `src/epubworker/render.rs`: split at the first
whitespace character; without one, the line is returned untouched. -/
def split_title_line (line : String) : String × Option String :=
  let cs := line.toList
  let label := cs.takeWhile (fun c => !isWsChar c)
  if label.length = cs.length then (line, none)
  else
    let rest := trimL (cs.drop label.length)
    if rest.isEmpty then (String.mk (trimL label), none)
    else (String.mk (trimL label), some (String.mk rest))

/-- Rust `digits.parse::<u32>()`: succeeds on a non-empty all-digit string whose value
fits in `u32`. -/
def natOfDigits (ds : List Char) : Nat := ds.foldl (fun n c => n * 10 + (c.toNat - 48)) 0

def parseU32 (ds : List Char) : Option Nat :=
  if ds.isEmpty then none
  else if natOfDigits ds < 2 ^ 32 then some (natOfDigits ds) else none

def romanTable : List (Nat × String) :=
  [(1000, "M"), (900, "CM"), (500, "D"), (400, "CD"), (100, "C"), (90, "XC"),
   (50, "L"), (40, "XL"), (10, "X"), (9, "IX"), (5, "V"), (4, "IV"), (1, "I")]

def strRepeat (s : String) (n : Nat) : String := String.join (List.replicate n s)

/-- Function `to_roman` from `src/epubworker/render.rs`. The source appends each symbol in a
`while num >= value` loop, which runs exactly `num / value` times and leaves
`num % value`; the fold below performs the same computation. -/
def to_roman (num : Nat) : String :=
  (romanTable.foldl (fun (st : String × Nat) (p : Nat × String) =>
    (st.1 ++ strRepeat p.2 (st.2 / p.1), st.2 % p.1)) ("", num)).1

def headSeps : List Char := [':', '：', '-', '—']

/-- Whether the target language selects the English heading branch:
`language.trim().to_ascii_lowercase().starts_with("en")`. -/
def isEnglishLang (language : String) : Bool := strStarts (asciiLower (rustTrim language)) "en"

/-- Function `format_chapter_heading` from `src/epubworker/render.rs`. -/
def format_chapter_heading (line language : String) : String × Option String :=
  let trimmed := rustTrim line
  let lower := asciiLower trimmed
  let fallback := split_title_line trimmed
  if isEnglishLang language || strStarts lower "chapter " then
    match splitWhitespace trimmed with
    | first :: num_token :: parts =>
      if asciiLower first == "chapter" then
        match parseU32 (num_token.toList.takeWhile Char.isDigit) with
        | some num =>
          let roman := to_roman num
          let rest := strIntercalate " " parts
          let rest :=
            if (match rest.toList with
                | c :: _ => headSeps.contains c
                | [] => false) then
              String.mk (trimL (rest.toList.dropWhile (fun c => headSeps.contains c)))
            else rest
          let label := "Chapter " ++ roman
          if rustTrim rest == "" then (label, none) else (label, some rest)
        | none => fallback
      else fallback
    | _ => fallback
  else fallback

def sentCloserChars : List Char :=
  ['”', '’', '）', '】', '》', '」', '』', '〉', ')', ']', '}', '"', '\'']

def sentTermChars : List Char :=
  ['。', '！', '？', '…', '!', '?', '.', '；', ';', '：', ':']

def ewspAux : List Char → Bool
  | [] => false
  | c :: rest => if sentCloserChars.contains c then ewspAux rest else sentTermChars.contains c

/-- Function `ends_with_sentence_punct` from `src/epubworker/render.rs`: scan from the end,
skipping closing quotes/brackets; the first other character must be a terminator. -/
def ends_with_sentence_punct (text : String) : Bool := ewspAux text.toList.reverse

def blankLine (l : String) : Bool := rustTrim l == ""

/-- One step of the blank-line grouping loop of `split_paragraphs`: the state is
(finished paragraphs, current run). -/
def paraStep (st : List (List String) × List String) (line : String) :
    List (List String) × List String :=
  let trimmed := rustTrimEnd line
  if rustTrim trimmed == "" then
    (if st.2.isEmpty then st else (st.1 ++ [st.2], []))
  else (st.1, st.2 ++ [trimmed])

/-- Function `split_paragraphs` from `src/epubworker/render.rs`. -/
def split_paragraphs (content : String) : List (List String) :=
  let lines := rustLines content
  let has_blank := lines.any blankLine
  let early : Option (List (List String)) :=
    if has_blank then none
    else
      let cleaned := lines.filterMap (fun l =>
        let t := rustTrim l
        if t == "" then none else some t)
      let non_empty := cleaned.length
      let punct := (cleaned.filter ends_with_sentence_punct).length
      if 0 < non_empty ∧ non_empty * 2 ≤ punct * 3 then some (cleaned.map (fun l => [l]))
      else if !cleaned.isEmpty then some [cleaned]
      else none
  match early with
  | some r => r
  | none =>
    let st := lines.foldl paraStep ([], [])
    let paragraphs := if !st.2.isEmpty then st.1 ++ [st.2] else st.1
    if paragraphs.isEmpty ∧ rustTrim content ≠ "" then [[rustTrim content]] else paragraphs

/-- Function `extract_marker_class` from `src/epubworker/render.rs`, returning the extracted
class (if any) together with the updated line list (the source mutates in place). -/
def extract_marker_class (lines : List String) : Option String × List String :=
  match lines with
  | [] => (none, [])
  | first_line :: rest =>
    let first := rustTrimStart first_line
    if !(strStarts (asciiLower first) "[class=") then (none, first_line :: rest)
    else
      match charIdx first ']' with
      | none => (none, first_line :: rest)
      | some e =>
        let class_value := rustTrim (strSliceChars first 7 e)
        if class_value == "" then (none, first_line :: rest)
        else
          let r := rustTrimStart (strDropChars first (e + 1))
          if r == "" then (some class_value, rest)
          else (some class_value, r :: rest)

/-- Function `merge_classes` from `src/epubworker/render.rs`. -/
def merge_classes (base extra : String) : String :=
  if rustTrim extra == "" then base
  else strIntercalate " " (base :: splitWhitespace extra)

def scctSeps : List Char := [':', '：', '-', '—', '–', '―', '·', '・', ' ', '\t', '　']

def scctMarkers : List Char := ['章', '回', '节', '卷', '部', '篇']

def firstSome {α : Type} : List (Option α) → Option α
  | [] => none
  | some a :: _ => some a
  | none :: rest => firstSome rest

/-- One marker attempt of `split_chinese_chapter_title`. -/
def scctTry (trimmed : String) (marker : Char) : Option (String × String) :=
  match charIdx trimmed marker with
  | none => none
  | some idx =>
    let pre := rustTrim (strSliceChars trimmed 0 (idx + 1))
    let rest0 := rustTrim (strDropChars trimmed (idx + 1))
    let rest := rustTrim (String.mk (rest0.toList.dropWhile (fun c => scctSeps.contains c)))
    if rest ≠ "" then some (pre, rest) else none

/-- Function `split_chinese_chapter_title` from `src/epubworker/render.rs`: markers are tried
in order, and a marker whose remainder is empty falls through to the next. -/
def split_chinese_chapter_title (line : String) : Option (String × String) :=
  let trimmed := rustTrim line
  if !(trimmed.toList.headD ' ' == '第') then none
  else firstSome (scctMarkers.map (scctTry trimmed))

/-- Enum `CssTemplate` from `src/lib.rs`. -/
inductive CssTemplate where
  | Classic : CssTemplate
  | Modern : CssTemplate
  | Clean : CssTemplate
  | Elegant : CssTemplate
  | Folio : CssTemplate
  | Fantasy : CssTemplate
  | Minimal : CssTemplate
deriving DecidableEq, Repr

/-- Structure `TextStyle` from `src/lib.rs`. The `f32` fields are modelled as rationals and
the RGBA color as its packed word; the renderer reads only `text_indent` and the
four extra class strings. -/
structure TextStyle where
  line_height : ℚ
  paragraph_spacing : ℚ
  text_indent : ℚ
  font_size : ℚ
  font_color : Nat
  font_path : String
  css_template : CssTemplate
  custom_css : String
  extra_body_class : String
  extra_chapter_class : String
  extra_title_class : String
  extra_paragraph_class : String

/-- The `Default` impl of `TextStyle`. -/
def defaultStyle : TextStyle :=
  { line_height := 3 / 2, paragraph_spacing := 1, text_indent := 2, font_size := 16,
    font_color := 0xFF000000, font_path := "", css_template := CssTemplate.Classic,
    custom_css := "", extra_body_class := "", extra_chapter_class := "",
    extra_title_class := "", extra_paragraph_class := "" }

/-- Structure `ImageAsset` from `src/lib.rs`. -/
structure ImageAsset where
  name : String
  bytes : List Nat
  mime : String
  caption : Option String

/-- Structure `FontAsset` from `src/lib.rs`. -/
structure FontAsset where
  name : String
  family : String
  bytes : List Nat
  mime : String

/-- Models `format!("{:.2}", x)` for the `f32` text indent: two decimal places,
rounding half away from zero (the float values reachable from the UI make the
half-to-even tie case irrelevant for the properties proved here). -/
def formatIndent (q : ℚ) : String :=
  let d := q.den
  let n := q.num.natAbs
  let cents : Nat := (n * 200 + d) / (2 * d)
  (if q.num < 0 ∧ cents ≠ 0 then "-" else "") ++ toString (cents / 100) ++ "." ++
    (if cents % 100 < 10 then "0" else "") ++ toString (cents % 100)

/-- Models `format!("{:02}", chapter_index)`. -/
def pad2 (n : Nat) : String := if n < 10 then "0" ++ toString n else toString n

/-- A fragment of the rendered XHTML: either a literal pushed verbatim by
`render_chapter`, or a dynamic chunk that the source passes through `escape_html`. -/
inductive Piece where
  | lit : String → Piece
  | esc : String → Piece

def Piece.out : Piece → String
  | Piece.lit s => s
  | Piece.esc s => escape_html s

/-- Function `append_standard_chapter_header` from `src/epubworker/render.rs`, as pieces.
Note the source interpolates `header_class` without escaping. -/
def standardHeaderPieces (title language : String) (style : TextStyle) : List Piece :=
  let lt := format_chapter_heading title language
  let label := lt.1
  let header_class := merge_classes "chapter-header" style.extra_chapter_class
  [Piece.lit ("<div class=\"" ++ header_class ++ "\">\n"),
   Piece.lit "<div class=\"chapter-ornament\"></div>\n"] ++
  (match lt.2 with
   | some t =>
     [Piece.lit "<div class=\"chapter-label\">", Piece.esc label, Piece.lit "</div>\n"] ++
     (if rustTrim style.extra_title_class == "" then
        [Piece.lit "<h2>", Piece.esc t, Piece.lit "</h2>\n"]
      else
        [Piece.lit "<h2 class=\"", Piece.esc (rustTrim style.extra_title_class),
         Piece.lit "\">", Piece.esc t, Piece.lit "</h2>\n"])
   | none =>
     if rustTrim style.extra_title_class == "" then
       [Piece.lit "<h2>", Piece.esc label, Piece.lit "</h2>\n"]
     else
       [Piece.lit "<h2 class=\"", Piece.esc (rustTrim style.extra_title_class),
        Piece.lit "\">", Piece.esc label, Piece.lit "</h2>\n"]) ++
  [Piece.lit "<div class=\"chapter-ornament\"></div>\n", Piece.lit "</div>\n"]

/-- The escaped paragraph lines joined by `<br/>`. -/
def brJoinPieces : List String → List Piece
  | [] => []
  | [l] => [Piece.esc l]
  | l :: rest => Piece.esc l :: Piece.lit "<br/>" :: brJoinPieces rest

/-- One paragraph of the `render_chapter` body loop, as pieces. -/
def paragraphPieces (style : TextStyle) (indentStr : String) (idx : Nat)
    (paragraph : List String) : List Piece :=
  let mk := extract_marker_class paragraph
  let pclass0 :=
    if idx == 0 then "chapter-paragraph chapter-paragraph-first" else "chapter-paragraph"
  let pclass1 := merge_classes pclass0 style.extra_paragraph_class
  let pclass :=
    match mk.1 with
    | some m => merge_classes pclass1 m
    | none => pclass1
  let indent := if idx == 0 then "0.00" else indentStr
  [Piece.lit "<p class=\"", Piece.esc pclass,
   Piece.lit ("\" style=\"text-indent: " ++ indent ++ "em;\">")] ++
  brJoinPieces mk.2 ++ [Piece.lit "</p>\n"]

/-- Function `render_chapter` from `src/epubworker/render.rs`, as a list of pieces in
source push order. -/
def renderPieces (chapter : ChapterDraft) (language : String) (style : TextStyle)
    (template : CssTemplate) (chapter_index : Nat) (header_image : Option ImageAsset)
    (header_fullbleed : Bool) : List Piece :=
  let base_body_class :=
    if template = CssTemplate.Fantasy then "chapter intro2 fantasy" else "chapter"
  let body_class := merge_classes base_body_class style.extra_body_class
  let headPieces : List Piece :=
    [Piece.lit "<?xml version=\"1.0\" encoding=\"utf-8\"?>",
     Piece.lit "\n",
     Piece.lit "<!DOCTYPE html PUBLIC \"-//W3C//DTD XHTML 1.1//EN\" \"http://www.w3.org/TR/xhtml11/DTD/xhtml11.dtd\">",
     Piece.lit "\n",
     Piece.lit ("<html xmlns=\"http://www.w3.org/1999/xhtml\" xml:lang=\"" ++ language ++ "\">"),
     Piece.lit "\n",
     Piece.lit "<head>", Piece.lit "\n",
     Piece.lit "<meta http-equiv=\"Content-Type\" content=\"application/xhtml+xml; charset=utf-8\"/>",
     Piece.lit "\n",
     Piece.lit "<link rel=\"stylesheet\" type=\"text/css\" href=\"stylesheet.css\"/>",
     Piece.lit "\n",
     Piece.lit "</head>", Piece.lit "\n",
     Piece.lit "<body class=\"", Piece.esc body_class, Piece.lit "\">", Piece.lit "\n"]
  let headerPieces : List Piece :=
    if template = CssTemplate.Fantasy then
      match split_chinese_chapter_title (rustTrim chapter.title) with
      | some (chapter_no, chapter_title) =>
        let src :=
          match header_image with
          | some a => "images/" ++ a.name
          | none => "images/头图.webp"
        let hidden_class := merge_classes "chapter-title-hidden" style.extra_title_class
        [Piece.lit "<div class=\"Header-image-dk\">",
         Piece.lit "<img class=\"width100\" src=\"", Piece.esc src, Piece.lit "\" alt=\"\"/>",
         Piece.lit "</div>\n",
         Piece.lit "<h2 class=\"", Piece.esc hidden_class, Piece.lit "\">",
         Piece.esc (rustTrim chapter.title), Piece.lit "</h2>\n",
         Piece.lit "<p class=\"nt\"><img class=\"emoji\" src=\"images/4star.webp\" alt=\"\"/> ",
         Piece.esc chapter_no,
         Piece.lit " <img class=\"emoji\" src=\"images/4star.webp\" alt=\"\"/></p>\n",
         Piece.lit ("<p class=\"et\">CHAPTER" ++ pad2 chapter_index ++ "</p>\n"),
         Piece.lit "<p class=\"ct\"><img class=\"emoji1\" src=\"images/ttl.webp\" alt=\"\"/> ",
         Piece.esc chapter_title,
         Piece.lit " <img class=\"emoji1\" src=\"images/ttr.webp\" alt=\"\"/></p>\n"]
      | none => standardHeaderPieces (rustTrim chapter.title) language style
    else
      (match header_image with
       | some h =>
         let hc := if header_fullbleed then "chapter-head-image fullbleed" else "chapter-head-image"
         [Piece.lit "<div class=\"", Piece.esc hc, Piece.lit "\"><img src=\"images/",
          Piece.esc h.name, Piece.lit "\" alt=\"\"/></div>\n"]
       | none => []) ++ standardHeaderPieces (rustTrim chapter.title) language style
  let indentStr := formatIndent style.text_indent
  let paraPieces :=
    (split_paragraphs chapter.content).enum.flatMap
      (fun p => paragraphPieces style indentStr p.1 p.2)
  headPieces ++ headerPieces ++ paraPieces ++
    [Piece.lit "</body>", Piece.lit "\n", Piece.lit "</html>"]

/-- Function `render_chapter` from `src/epubworker/render.rs`: the assembled XHTML string. -/
def render_chapter (chapter : ChapterDraft) (language : String) (style : TextStyle)
    (template : CssTemplate) (chapter_index : Nat) (header_image : Option ImageAsset)
    (header_fullbleed : Bool) : String :=
  String.join ((renderPieces chapter language style template chapter_index header_image
    header_fullbleed).map Piece.out)

/-! ### `src/epubworker/utils.rs` -/

/-- Structure `BookInfo` from `src/lib.rs`. -/
structure BookInfo where
  author : String
  title : String
  language : String
  publisher : String
  isbn : String
  category : String
  publish_date : String
  description : String
deriving DecidableEq, Repr

/-- The `Default` impl of `BookInfo` (all fields empty). -/
def emptyBookInfo : BookInfo := ⟨"", "", "", "", "", "", "", ""⟩

def invalidFileChars : List Char := ['/', '\\', ':', '*', '?', '"', '<', '>', '|']

/-- Function `sanitize_filename_component` from `src/epubworker/utils.rs`: the source
replaces each invalid character in turn with the empty string (equivalently,
filters them all out), then trims. -/
def sanitize_filename_component (input : String) : String :=
  rustTrim (String.mk (input.toList.filter (fun c => !invalidFileChars.contains c)))

/-- Model of Rust `str::replace`: replace every non-overlapping occurrence of
`pat`, scanning left to right (fuel-bounded; every step consumes at least one
character, so `cs.length` fuel suffices). -/
def replaceAllAux (pat rep : List Char) : Nat → List Char → List Char
  | 0, cs => cs
  | fuel + 1, cs =>
    match cs with
    | [] => []
    | c :: rest =>
      if !pat.isEmpty && pat.isPrefixOf cs then
        rep ++ replaceAllAux pat rep fuel (cs.drop pat.length)
      else c :: replaceAllAux pat rep fuel rest

def strReplace (s pat rep : String) : String :=
  String.mk (replaceAllAux pat.toList rep.toList s.toList.length s.toList)

/-- The title shown in filenames: `"Untitled"` when blank. -/
def displayTitle (bi : BookInfo) : String :=
  if rustTrim bi.title == "" then "Untitled" else rustTrim bi.title

/-- The author shown in filenames: `"Unknown"` when blank. -/
def displayAuthor (bi : BookInfo) : String :=
  if rustTrim bi.author == "" then "Unknown" else rustTrim bi.author

/-- The placeholder-substituted (not yet sanitized) filename. -/
def substitutedTemplate (book_info : BookInfo) (template : String) : String :=
  let f := strReplace template "\x7b书名\x7d" (displayTitle book_info)
  let f := strReplace f "\x7b作者\x7d" (displayAuthor book_info)
  strReplace f "\x7b日期\x7d" (rustTrim book_info.publish_date)

/-- Function `generate_filename` from `src/epubworker/utils.rs`. -/
def generate_filename (book_info : BookInfo) (template : String) : String :=
  let title := displayTitle book_info
  let author := displayAuthor book_info
  let f := sanitize_filename_component (substitutedTemplate book_info template)
  let f := if strEndsWith f ".epub" then f else f ++ ".epub"
  if f == ".epub" then title ++ "_" ++ author ++ ".epub" else f

/-! ### `src/epubworker.rs` and `src/conversion.rs` (control flow) -/

/-- Enum `BuildError` from `src/epubworker.rs` (payloads reduced to their messages). -/
inductive BuildError where
  | Io : String → BuildError
  | Epub : String → BuildError
  | InvalidInput : String → BuildError
deriving DecidableEq, Repr

/-- Structure `EpubBuildOptions` from `src/epubworker.rs`. -/
structure EpubBuildOptions where
  book_info : BookInfo
  output_dir : String
  filename_template : String
  style : TextStyle
  cover : Option ImageAsset
  images : List ImageAsset
  font : Option FontAsset
  include_images_section : Bool
  inline_toc : Bool

/-- Function `build_epub` from `src/epubworker.rs`. Its first statement rejects an empty
chapter list; everything after the guard (directory creation, file creation,
metadata, stylesheet, assets, chapter rendering, archive finalization) performs
file I/O and is abstracted as the continuation `rest`, which the guard runs
strictly before. -/
def build_epub (chapters : List ChapterDraft) (options : EpubBuildOptions)
    (rest : List ChapterDraft → EpubBuildOptions → Except BuildError String) :
    Except BuildError String :=
  if chapters.isEmpty then Except.error (BuildError.InvalidInput "No chapters provided.")
  else rest chapters options

/-- Enum `ConversionMethod` from `src/lib.rs`. -/
inductive ConversionMethod where
  | Regex : ConversionMethod
  | CustomConfig : ConversionMethod
  | SimpleRules : ConversionMethod
deriving DecidableEq, Repr

/-- Enum `ConversionError` from `src/conversion.rs` (payloads reduced to messages). -/
inductive ConversionError where
  | InvalidInput : String → ConversionError
  | Regex : String → ConversionError
  | Io : String → ConversionError
  | Build : BuildError → ConversionError
deriving DecidableEq, Repr

/-- Structure `ConversionRequest` from `src/conversion.rs`. -/
structure ConversionRequest where
  text : String
  method : ConversionMethod
  custom_regex : String
  custom_config_path : Option String
  book_info : BookInfo
  output_dir : String
  filename_template : String
  style : TextStyle
  cover : Option ImageAsset
  images : List ImageAsset
  font : Option FontAsset
  chapters_override : Option (List ChapterDraft)
  include_images_section : Bool
  inline_toc : Bool

structure ConversionResult where
  output_path : String

/-- Factory `StrategyFactory::create` composed with `ChapterSplitStrategy::split` from
`src/conversion.rs`. Regex compilation (`Regex::new`) and config-file reading
(`fs::read_to_string`) are external effects, passed in as the oracles `compile`
and `readToString`; their failures map to `Regex` and `Io` errors exactly as in
the source. -/
def strategyCreate (method : ConversionMethod) (custom_regex : String)
    (config_path : Option String)
    (compile : String → Except String Matcher)
    (readToString : String → Except String String) :
    Except ConversionError (String → List ChapterDraft) :=
  match method with
  | ConversionMethod.Regex =>
    if rustTrim custom_regex == "" then
      Except.ok (fun text => split_to_drafts Pattern.ChineseChapter text)
    else
      match compile (rustTrim custom_regex) with
      | Except.error e => Except.error (ConversionError.Regex e)
      | Except.ok m => Except.ok (fun text => split_to_drafts (Pattern.Custom m) text)
  | ConversionMethod.CustomConfig =>
    match config_path with
    | none => Except.error (ConversionError.InvalidInput "Please choose a valid regex config file.")
    | some path =>
      match readToString path with
      | Except.error e => Except.error (ConversionError.Io e)
      | Except.ok regex_str =>
        match compile (rustTrim regex_str) with
        | Except.error e => Except.error (ConversionError.Regex e)
        | Except.ok m => Except.ok (fun text => split_to_drafts (Pattern.Custom m) text)
  | ConversionMethod.SimpleRules =>
    Except.ok (fun text => split_to_drafts Pattern.SimpleRules text)

/-- Function `ConversionFacade::convert` from `src/conversion.rs`, with the same external
effects abstracted as in `strategyCreate` and `build_epub`. -/
def ConversionFacade.convert (req : ConversionRequest)
    (compile : String → Except String Matcher)
    (readToString : String → Except String String)
    (rest : List ChapterDraft → EpubBuildOptions → Except BuildError String) :
    Except ConversionError ConversionResult :=
  if rustTrim req.text == "" then
    Except.error (ConversionError.InvalidInput "Text content is empty.")
  else
    let chaptersE : Except ConversionError (List ChapterDraft) :=
      match req.chapters_override with
      | some cs => Except.ok cs
      | none =>
        match strategyCreate req.method req.custom_regex req.custom_config_path
            compile readToString with
        | Except.error e => Except.error e
        | Except.ok strat => Except.ok (strat req.text)
    match chaptersE with
    | Except.error e => Except.error e
    | Except.ok chapters =>
      if chapters.isEmpty then
        Except.error (ConversionError.InvalidInput "No chapters detected.")
      else
        let options : EpubBuildOptions :=
          { book_info := req.book_info, output_dir := req.output_dir,
            filename_template := req.filename_template, style := req.style,
            cover := req.cover, images := req.images, font := req.font,
            include_images_section := req.include_images_section,
            inline_toc := req.inline_toc }
        match build_epub chapters options rest with
        | Except.error e => Except.error (ConversionError.Build e)
        | Except.ok path => Except.ok ⟨path⟩

/-- Whether a conversion outcome is an `InvalidInput` error. -/
def isInvalidInputErr {α : Type} : Except ConversionError α → Bool
  | Except.error (ConversionError.InvalidInput _) => true
  | _ => false


/-! ### Auxiliary definitions used by the statements -/

/-- Following the words of the claim: the maximal runs of non-blank lines of the body,
delimited by blank lines, with the lines kept verbatim (split on blank lines and
drop the empty runs). -/
def blankRunsAux : List String → List String → List (List String)
  | [], cur => [cur]
  | l :: rest, cur =>
    if blankLine l then cur :: blankRunsAux rest [] else blankRunsAux rest (cur ++ [l])

def specBlankDelimitedParagraphs (content : String) : List (List String) :=
  (blankRunsAux (rustLines content) []).filter (fun r => !r.isEmpty)

def strConcat : List String → String
  | [] => ""
  | s :: rest => s ++ strConcat rest

/-- The single raw chapter that `split_by_simple_rules` accumulates when no line
is classified as a title line. -/
def simpleRulesCollapsed (text : String) : String :=
  rustTrim (strConcat ((rustLines (cleanText text)).map (fun l => rustTrim l ++ "\n")))

/-- Substring test used to state concrete properties of rendered XHTML. -/
def hasSeqAux (pat : List Char) : List Char → Bool
  | [] => pat.isEmpty
  | c :: rest => pat.isPrefixOf (c :: rest) || hasSeqAux pat rest

def strContains (hay pat : String) : Bool := hasSeqAux pat.toList hay.toList

/-- The tail allowed after a `&` in HTML-escaped text: one of the five entities
produced by `escape_html`. -/
def entityTailOk (rest : List Char) : Bool :=
  "amp;".toList.isPrefixOf rest || "lt;".toList.isPrefixOf rest ||
  "gt;".toList.isPrefixOf rest || "quot;".toList.isPrefixOf rest ||
  "#39;".toList.isPrefixOf rest

/-- Escaped form: no raw `<`, `>`, `"` or `'` at all, and every `&` starts one of
the five entities. -/
def escOkB : List Char → Bool
  | [] => true
  | c :: rest =>
    if c == '<' || c == '>' || c == '"' || c == '\'' then false
    else if c == '&' then entityTailOk rest && escOkB rest
    else escOkB rest

def witnessRequest : ConversionRequest :=
  { text := "", method := ConversionMethod.SimpleRules, custom_regex := "",
    custom_config_path := none, book_info := emptyBookInfo, output_dir := ".",
    filename_template := "out", style := defaultStyle, cover := none, images := [],
    font := none, chapters_override := none, include_images_section := false,
    inline_toc := false }

def witnessCompile : String → Except String Matcher := fun _ => Except.error "unused"

def witnessRead : String → Except String String := fun _ => Except.error "unused"

def witnessRest : List ChapterDraft → EpubBuildOptions → Except BuildError String :=
  fun _ _ => Except.ok "out.epub"

/-! ### Helper lemmas about trimming -/

lemma dropWhileIdem {α : Type} (p : α → Bool) (l : List α) :
    (l.dropWhile p).dropWhile p = l.dropWhile p := by
  induction l with
  | nil => rfl
  | cons c t ih =>
    by_cases h : p c
    · simp [List.dropWhile_cons, h, ih]
    · simp [List.dropWhile_cons, h]

lemma trimStartL_cons (c : Char) (t : List Char) :
    trimStartL (c :: t) = if isWsChar c then trimStartL t else c :: t := by
  simp [trimStartL, List.dropWhile_cons]

lemma trimStartL_idem (l : List Char) : trimStartL (trimStartL l) = trimStartL l :=
  dropWhileIdem _ _

lemma trimEndL_cons (c : Char) (t : List Char) :
    trimEndL (c :: t) =
      if trimEndL t = [] then (if isWsChar c then [] else [c]) else c :: trimEndL t := by
  have hrev : (c :: t).reverse = t.reverse ++ [c] := by simp
  unfold trimEndL
  rw [hrev, List.dropWhile_append]
  by_cases h : (List.dropWhile isWsChar t.reverse).isEmpty = true
  · have h2 : (List.dropWhile isWsChar t.reverse).reverse = [] := by
      rw [List.isEmpty_iff] at h
      rw [h]
      rfl
    rw [if_pos h, if_pos h2]
    by_cases hc : isWsChar c = true
    · simp [List.dropWhile_cons, hc]
    · simp [List.dropWhile_cons, hc]
  · have h2 : ¬ (List.dropWhile isWsChar t.reverse).reverse = [] := by
      rw [List.isEmpty_iff] at h
      simpa using h
    rw [if_neg h, if_neg h2]
    simp

lemma trimEndL_idem (l : List Char) : trimEndL (trimEndL l) = trimEndL l := by
  unfold trimEndL
  rw [List.reverse_reverse, dropWhileIdem]

lemma trimStart_trimEnd_comm (l : List Char) :
    trimStartL (trimEndL l) = trimEndL (trimStartL l) := by
  induction l with
  | nil => rfl
  | cons c t ih =>
    rw [trimEndL_cons]
    by_cases hc : isWsChar c = true
    · by_cases h0 : trimEndL t = []
      · rw [if_pos h0, if_pos hc, trimStartL_cons, if_pos hc, ← ih, h0]
      · rw [if_neg h0, trimStartL_cons, if_pos hc, ih, trimStartL_cons, if_pos hc]
    · by_cases h0 : trimEndL t = []
      · rw [if_pos h0, if_neg hc, trimStartL_cons, if_neg hc, trimStartL_cons, if_neg hc,
          trimEndL_cons, if_pos h0, if_neg hc]
      · rw [if_neg h0, trimStartL_cons, if_neg hc, trimStartL_cons, if_neg hc,
          trimEndL_cons, if_neg h0]

lemma trimL_idem (l : List Char) : trimL (trimL l) = trimL l := by
  unfold trimL
  calc trimEndL (trimStartL (trimEndL (trimStartL l)))
      = trimEndL (trimEndL (trimStartL (trimStartL l))) := by rw [trimStart_trimEnd_comm]
    _ = trimEndL (trimEndL (trimStartL l)) := by rw [trimStartL_idem]
    _ = trimEndL (trimStartL l) := trimEndL_idem _

lemma trimL_trimEndL (l : List Char) : trimL (trimEndL l) = trimL l := by
  unfold trimL
  rw [trimStart_trimEnd_comm, trimEndL_idem]

lemma mem_of_mem_dropWhile {α : Type} {p : α → Bool} {c : α} {l : List α}
    (h : c ∈ l.dropWhile p) : c ∈ l := by
  have := List.takeWhile_append_dropWhile p l
  rw [← this]
  exact List.mem_append_right _ h

lemma mem_of_mem_trimEndL {c : Char} {l : List Char} (h : c ∈ trimEndL l) : c ∈ l := by
  unfold trimEndL at h
  rw [List.mem_reverse] at h
  have := mem_of_mem_dropWhile h
  simpa using this

lemma mem_of_mem_trimL {c : Char} {l : List Char} (h : c ∈ trimL l) : c ∈ l := by
  unfold trimL at h
  exact mem_of_mem_dropWhile (mem_of_mem_trimEndL h)

lemma cleanL_trimmed (cs : List Char) : trimL (cleanL cs) = cleanL cs := by
  unfold cleanL
  rw [trimL_idem]

/-! ### C1 -/

/-- C1: the built-in Chinese chapter pattern only matches at line starts of the
text (a marker mentioned mid-line never starts a boundary), and splitting the
given four-line text with it yields exactly the two expected chapter drafts. -/
theorem chinese_pattern_line_anchored :
    (∀ (cs : List Char) (pos : Nat), (chineseMatchLen cs pos).isSome = true →
      isLineStart cs pos = true) ∧
    split_to_drafts Pattern.ChineseChapter
        "第一章 开始\n内容里提到第十章但不应切分\n第二章 继续\n内容" =
      [{ title := "第一章 开始", content := "内容里提到第十章但不应切分" },
       { title := "第二章 继续", content := "内容" }] := by
  constructor
  · intro cs pos h
    by_cases hls : isLineStart cs pos = true
    · exact hls
    · simp [chineseMatchLen, hls] at h
  · decide

/-- C1 witness: the anchoredness statement applied at a concrete match. -/
theorem chinese_pattern_line_anchored_witness :
    isLineStart "第一章 开始".toList 0 = true :=
  chinese_pattern_line_anchored.1 "第一章 开始".toList 0 (by decide)

/-! ### C2 -/

/-- C2 counterexample: on `"hello world"` the built-in Chinese pattern finds no
match, yet the regex split strategy returns the whole text as one chapter draft
rather than the empty list claimed. -/
theorem regex_split_no_match_counterexample :
    findIter chineseMatchLen (cleanL "hello world".toList) = [] ∧
    split_to_drafts Pattern.ChineseChapter "hello world" =
      [{ title := "hello world", content := "" }] := by
  decide

/-- C2 (amended): when the boundary pattern finds no match, the regex split
strategy returns the whole normalized text as a single chapter draft (the empty
list arises only when the normalized text is empty). -/
theorem regex_split_no_match_amended :
    ∀ (p : Pattern) (text : String), p ≠ Pattern.SimpleRules →
      findIter p.toMatcher (cleanL text.toList) = [] →
      split_to_drafts p text =
        if cleanL text.toList = [] then []
        else [ChapterDraft.from_raw (String.mk (cleanL text.toList))] := by
  intro p text hp hfind
  have hcore : split_by_regex p.toMatcher text =
      if cleanL text.toList = [] then [] else [String.mk (cleanL text.toList)] := by
    unfold split_by_regex
    simp only [hfind, List.foldl_nil]
    by_cases ht : cleanL text.data = []
    · simp [ht]
    · have hlen : 0 < (cleanL text.data).length := List.length_pos.mpr ht
      have hne : (cleanL text.data).isEmpty = false := by
        simp [List.isEmpty_iff, ht]
      have htr : trimL (cleanL text.data) = cleanL text.data := cleanL_trimmed _
      simp [ht, hlen, hne, htr]
  have hdrafts : split_by_pattern p text =
      if cleanL text.toList = [] then [] else [String.mk (cleanL text.toList)] := by
    cases p with
    | SimpleRules => exact absurd rfl hp
    | ChineseChapter => exact hcore
    | EnglishChapter => exact hcore
    | Custom m => exact hcore
  unfold split_to_drafts
  rw [hdrafts]
  by_cases ht : cleanL text.toList = []
  · rw [if_pos ht, if_pos ht]
    rfl
  · rw [if_neg ht, if_neg ht]
    rfl

/-- C2 witness: the amended statement applied to the Chinese pattern and a
matchless text. -/
theorem regex_split_no_match_amended_witness :
    split_to_drafts Pattern.ChineseChapter "hello there" =
      if cleanL "hello there".toList = [] then []
      else [ChapterDraft.from_raw (String.mk (cleanL "hello there".toList))] :=
  regex_split_no_match_amended Pattern.ChineseChapter "hello there"
    (fun h => Pattern.noConfusion h) (by decide)

/-! ### C3 -/

/-- C3: `build_epub` on an empty chapter list fails with `InvalidInput` regardless
of the rest of the build (so before anything is written), and
`ConversionFacade::convert` yields an `InvalidInput` error whenever the supplied
`chapters_override` is the empty list, or whenever segmentation produces zero
chapters. -/
theorem conversion_rejects_zero_chapters :
    (∀ (options : EpubBuildOptions)
        (rest : List ChapterDraft → EpubBuildOptions → Except BuildError String),
      build_epub [] options rest =
        Except.error (BuildError.InvalidInput "No chapters provided.")) ∧
    (∀ (req : ConversionRequest) (compile : String → Except String Matcher)
        (readToString : String → Except String String)
        (rest : List ChapterDraft → EpubBuildOptions → Except BuildError String),
      req.chapters_override = some [] →
      isInvalidInputErr (ConversionFacade.convert req compile readToString rest) = true) ∧
    (∀ (req : ConversionRequest) (compile : String → Except String Matcher)
        (readToString : String → Except String String)
        (rest : List ChapterDraft → EpubBuildOptions → Except BuildError String)
        (strat : String → List ChapterDraft),
      req.chapters_override = none →
      strategyCreate req.method req.custom_regex req.custom_config_path compile readToString =
        Except.ok strat →
      strat req.text = [] →
      isInvalidInputErr (ConversionFacade.convert req compile readToString rest) = true) := by
  refine ⟨fun options rest => rfl, ?_, ?_⟩
  · intro req compile readToString rest hov
    by_cases ht : (rustTrim req.text == "") = true
    · simp [ConversionFacade.convert, ht, isInvalidInputErr]
    · simp [ConversionFacade.convert, ht, hov, isInvalidInputErr]
  · intro req compile readToString rest strat hov hcreate hempty
    by_cases ht : (rustTrim req.text == "") = true
    · simp [ConversionFacade.convert, ht, isInvalidInputErr]
    · simp [ConversionFacade.convert, ht, hov, hcreate, hempty, isInvalidInputErr]

/-- C3 witness: segmentation of the empty text by SimpleRules yields zero
chapters, and convert indeed reports `InvalidInput`. -/
theorem conversion_rejects_zero_chapters_witness :
    isInvalidInputErr
      (ConversionFacade.convert witnessRequest witnessCompile witnessRead witnessRest) = true :=
  conversion_rejects_zero_chapters.2.2 witnessRequest witnessCompile witnessRead witnessRest
    (fun text => split_to_drafts Pattern.SimpleRules text) rfl rfl (by decide)

/-! ### C4 -/

/-- C4: `format_chapter_heading` on `"Chapter 4 The Beginning"` with language
`"en"` yields label `"Chapter IV"` and title `"The Beginning"`; `to_roman` follows
the standard subtractive notation on 9, 40 and 1994; and outside the English /
`"Chapter "`-prefixed case the heading splits at the first whitespace run. -/
theorem chapter_heading_formatting :
    format_chapter_heading "Chapter 4 The Beginning" "en" = ("Chapter IV", some "The Beginning") ∧
    to_roman 9 = "IX" ∧ to_roman 40 = "XL" ∧ to_roman 1994 = "MCMXCIV" ∧
    (∀ (line language : String),
      (isEnglishLang language || strStarts (asciiLower (rustTrim line)) "chapter ") = false →
      format_chapter_heading line language = split_title_line (rustTrim line)) := by
  refine ⟨by decide, by decide, by decide, by decide, ?_⟩
  intro line language h
  simp [format_chapter_heading, h]

/-- C4 witness: the fallback branch applied to a Chinese title. -/
theorem chapter_heading_formatting_witness :
    format_chapter_heading "你好 世界" "zh" = split_title_line (rustTrim "你好 世界") :=
  chapter_heading_formatting.2.2.2.2 "你好 世界" "zh" (by decide)


/-! ### C5 -/

lemma rustTrim_rustTrimEnd (l : String) : rustTrim (rustTrimEnd l) = rustTrim l := by
  unfold rustTrim rustTrimEnd
  show String.mk (trimL (trimEndL l.data)) = String.mk (trimL l.data)
  rw [trimL_trimEndL]

lemma blankLine_rustTrimEnd (l : String) : blankLine (rustTrimEnd l) = blankLine l := by
  unfold blankLine
  rw [rustTrim_rustTrimEnd]

lemma paraFold (lines : List String) :
    ∀ (paras : List (List String)) (cur : List String),
      (if (!((lines.foldl paraStep (paras, cur)).2).isEmpty) = true
       then (lines.foldl paraStep (paras, cur)).1 ++ [(lines.foldl paraStep (paras, cur)).2]
       else (lines.foldl paraStep (paras, cur)).1) =
      paras ++ (blankRunsAux (lines.map rustTrimEnd) cur).filter (fun r => !r.isEmpty) := by
  induction lines with
  | nil =>
    intro paras cur
    by_cases h : cur.isEmpty = true
    · simp [blankRunsAux, h]
    · simp [blankRunsAux, h]
  | cons l ls ih =>
    intro paras cur
    simp only [List.foldl_cons, List.map_cons, blankRunsAux]
    by_cases hb : blankLine l = true
    · have hb2 : (rustTrim (rustTrimEnd l) == "") = true := by
        have h2 : (rustTrim (rustTrimEnd l) == "") = (rustTrim l == "") :=
          blankLine_rustTrimEnd l
        rw [h2]
        simpa [blankLine] using hb
      have hbT : blankLine (rustTrimEnd l) = true := by
        rw [blankLine_rustTrimEnd]
        exact hb
      rw [if_pos hbT]
      by_cases hcur : cur.isEmpty = true
      · have hcur2 : cur = [] := List.isEmpty_iff.mp hcur
        subst hcur2
        rw [show paraStep (paras, ([] : List String)) l = (paras, []) from by
          simp [paraStep, hb2]]
        rw [ih paras []]
        simp
      · rw [show paraStep (paras, cur) l = (paras ++ [cur], []) from by
          simp [paraStep, hb2, hcur]]
        rw [ih (paras ++ [cur]) []]
        have hc : (!cur.isEmpty) = true := by simp [hcur]
        simp [List.filter_cons, hc]
    · have hb2 : (rustTrim (rustTrimEnd l) == "") = false := by
        have h2 : (rustTrim (rustTrimEnd l) == "") = (rustTrim l == "") :=
          blankLine_rustTrimEnd l
        rw [h2]
        simpa [blankLine] using hb
      have hbT : ¬ blankLine (rustTrimEnd l) = true := by
        rw [blankLine_rustTrimEnd]
        exact hb
      rw [if_neg hbT]
      rw [show paraStep (paras, cur) l = (paras, cur ++ [rustTrimEnd l]) from by
        simp [paraStep, hb2]]
      exact ih paras (cur ++ [rustTrimEnd l])

lemma blankRuns_filter_ne_nil_of_cur (ls : List String) :
    ∀ cur : List String, cur ≠ [] →
      (blankRunsAux ls cur).filter (fun r => !r.isEmpty) ≠ [] := by
  induction ls with
  | nil =>
    intro cur hc
    simp [blankRunsAux, List.filter_cons, hc]
  | cons l rest ih =>
    intro cur hc
    by_cases hb : blankLine l = true
    · have hcne : (!cur.isEmpty) = true := by simp [hc]
      simp [blankRunsAux, hb, List.filter_cons, hcne]
    · simp only [blankRunsAux, hb, Bool.false_eq_true, if_false]
      exact ih (cur ++ [l]) (by simp)

lemma blankRuns_filter_ne_nil (ls : List String) :
    ∀ cur : List String, (∃ l ∈ ls, blankLine l = false) →
      (blankRunsAux ls cur).filter (fun r => !r.isEmpty) ≠ [] := by
  induction ls with
  | nil =>
    intro cur h
    obtain ⟨l, hl, _⟩ := h
    cases hl
  | cons l rest ih =>
    intro cur h
    by_cases hb : blankLine l = true
    · obtain ⟨w, hw, hwb⟩ := h
      rcases List.mem_cons.mp hw with hwl | hwr
      · subst hwl
        rw [hb] at hwb
        cases hwb
      · have hrec := ih [] ⟨w, hwr, hwb⟩
        simp only [blankRunsAux, hb, if_true]
        intro hcontra
        rw [List.filter_cons] at hcontra
        by_cases hce : (!cur.isEmpty) = true
        · rw [if_pos hce] at hcontra
          cases hcontra
        · rw [if_neg hce] at hcontra
          exact hrec hcontra
    · simp only [blankRunsAux, hb, Bool.false_eq_true, if_false]
      exact blankRuns_filter_ne_nil_of_cur rest (cur ++ [l]) (by simp)

lemma blankRuns_map_trimEnd (ls : List String) :
    ∀ cur : List String,
      blankRunsAux (ls.map rustTrimEnd) (cur.map rustTrimEnd) =
        (blankRunsAux ls cur).map (List.map rustTrimEnd) := by
  induction ls with
  | nil => intro cur; simp [blankRunsAux]
  | cons l rest ih =>
    intro cur
    simp only [List.map_cons, blankRunsAux]
    have hbl : blankLine (rustTrimEnd l) = blankLine l := blankLine_rustTrimEnd l
    by_cases hb : blankLine l = true
    · rw [show (if blankLine (rustTrimEnd l) = true then
          (cur.map rustTrimEnd) :: blankRunsAux (rest.map rustTrimEnd) []
          else blankRunsAux (rest.map rustTrimEnd) (cur.map rustTrimEnd ++ [rustTrimEnd l])) =
          (cur.map rustTrimEnd) :: blankRunsAux (rest.map rustTrimEnd) [] from by
        rw [hbl, if_pos hb]]
      rw [if_pos hb]
      have h0 := ih []
      simp only [List.map_nil] at h0
      rw [h0]
      simp
    · rw [show (if blankLine (rustTrimEnd l) = true then
          (cur.map rustTrimEnd) :: blankRunsAux (rest.map rustTrimEnd) []
          else blankRunsAux (rest.map rustTrimEnd) (cur.map rustTrimEnd ++ [rustTrimEnd l])) =
          blankRunsAux (rest.map rustTrimEnd) (cur.map rustTrimEnd ++ [rustTrimEnd l]) from by
        rw [hbl, if_neg hb]]
      rw [if_neg hb]
      have h0 := ih (cur ++ [l])
      simpa using h0

lemma filter_nonEmpty_map_map (rs : List (List String)) (f : String → String) :
    (rs.map (List.map f)).filter (fun r => !r.isEmpty) =
      (rs.filter (fun r => !r.isEmpty)).map (List.map f) := by
  induction rs with
  | nil => rfl
  | cons r rest ih =>
    by_cases h : r.isEmpty = true
    · have hr : r = [] := List.isEmpty_iff.mp h
      subst hr
      simpa [List.filter_cons] using ih
    · have hr : r ≠ [] := by simpa [List.isEmpty_iff] using h
      have hm : (r.map f).isEmpty = false := by
        simp [List.isEmpty_iff, hr]
      simp [List.filter_cons, h, hm, ih]

lemma filterMap_trim_of_no_blank (lines : List String)
    (h : ∀ l ∈ lines, blankLine l = false) :
    lines.filterMap (fun l =>
      let t := rustTrim l
      if t == "" then none else some t) = lines.map rustTrim := by
  induction lines with
  | nil => rfl
  | cons l ls ih =>
    have hl : (rustTrim l == "") = false := h l (List.mem_cons_self _ _)
    have ihh := ih (fun x hx => h x (List.mem_cons_of_mem _ hx))
    simp only [List.filterMap_cons, List.map_cons, hl, Bool.false_eq_true, if_false]
    rw [ihh]

/-- C5 counterexample: with a trailing space on a line, the emitted paragraph line
is right-trimmed, so the output differs from the verbatim maximal runs of
non-blank lines that the claim describes. -/
theorem split_paragraphs_counterexample :
    split_paragraphs "x \n\ny" = [["x"], ["y"]] ∧
    specBlankDelimitedParagraphs "x \n\ny" = [["x "], ["y"]] ∧
    split_paragraphs "x \n\ny" ≠ specBlankDelimitedParagraphs "x \n\ny" := by
  decide

/-- C5 (amended): with at least one blank and one non-blank line, paragraphs are
the maximal runs of non-blank lines with each line right-trimmed; with no blank
line, either every (fully trimmed) line becomes its own paragraph (when at least
two thirds end in sentence punctuation) or the whole block is one paragraph; and
`"a\nb\n\nc\n\n\n"` yields `[["a","b"],["c"]]`. -/
theorem split_paragraphs_amended :
    (∀ content : String,
      (rustLines content).any blankLine = true →
      (rustLines content).any (fun l => !blankLine l) = true →
      split_paragraphs content =
        (specBlankDelimitedParagraphs content).map (List.map rustTrimEnd)) ∧
    (∀ content : String,
      (rustLines content).any blankLine = false →
      rustLines content ≠ [] →
      split_paragraphs content =
        if ((rustLines content).map rustTrim).length * 2 ≤
            (((rustLines content).map rustTrim).filter ends_with_sentence_punct).length * 3
        then ((rustLines content).map rustTrim).map (fun l => [l])
        else [(rustLines content).map rustTrim]) ∧
    split_paragraphs "a\nb\n\nc\n\n\n" = [["a", "b"], ["c"]] := by
  refine ⟨?_, ?_, by decide⟩
  · intro content hb hnb
    have hwit : ∃ l ∈ (rustLines content).map rustTrimEnd, blankLine l = false := by
      obtain ⟨w, hw, hwb⟩ := List.any_eq_true.mp hnb
      exact ⟨rustTrimEnd w, List.mem_map_of_mem _ hw,
        by rw [blankLine_rustTrimEnd]; simpa using hwb⟩
    have hfold := paraFold (rustLines content) [] []
    have hmap := blankRuns_map_trimEnd (rustLines content) []
    simp only [List.map_nil] at hmap
    have hne := blankRuns_filter_ne_nil ((rustLines content).map rustTrimEnd) [] hwit
    simp only [split_paragraphs, hb, if_true]
    rw [hfold]
    have hcondF : ¬(((([] : List (List String)) ++
        (blankRunsAux ((rustLines content).map rustTrimEnd) []).filter
          (fun r => !r.isEmpty)).isEmpty = true) ∧ rustTrim content ≠ "") := by
      intro hx
      have h0 := List.isEmpty_iff.mp hx.1
      rw [List.nil_append] at h0
      exact hne h0
    rw [if_neg hcondF]
    simp only [List.nil_append]
    rw [hmap, filter_nonEmpty_map_map]
    rfl
  · intro content hnb hne
    have hall : ∀ l ∈ rustLines content, blankLine l = false := by
      intro l hl
      have := List.any_eq_false.mp hnb l hl
      simpa using this
    have hfm := filterMap_trim_of_no_blank (rustLines content) hall
    have hlen : 0 < ((rustLines content).map rustTrim).length := by
      simpa [List.length_pos] using hne
    by_cases hcond : ((rustLines content).map rustTrim).length * 2 ≤
        (((rustLines content).map rustTrim).filter ends_with_sentence_punct).length * 3
    · simp only [split_paragraphs, hnb, Bool.false_eq_true, if_false, hfm]
      rw [if_pos ⟨hlen, hcond⟩, if_pos hcond]
    · have hcne : ((rustLines content).map rustTrim) ≠ [] := by
        intro hx
        rw [hx] at hlen
        cases hlen
      have hie : ((rustLines content).map rustTrim).isEmpty = false := by
        simp [List.isEmpty_iff, hcne]
      simp only [split_paragraphs, hnb, Bool.false_eq_true, if_false, hfm]
      rw [if_neg (by intro hx; exact hcond hx.2), if_neg hcond]
      simp [hie]

/-- C5 witness: the blank-line branch applied to a concrete body. -/
theorem split_paragraphs_amended_witness :
    split_paragraphs "a\nb\n\nc" =
      (specBlankDelimitedParagraphs "a\nb\n\nc").map (List.map rustTrimEnd) :=
  split_paragraphs_amended.1 "a\nb\n\nc" (by decide) (by decide)

/-! ### C6 -/

/-- C6 counterexample: with an all-invalid template the fallback
`"{title}_{author}.epub"` uses the unsanitized title and author, so the returned
filename does contain unsafe characters. -/
theorem filename_sanitation_counterexample :
    generate_filename ⟨"A:B", "My/Book", "", "", "", "", "", ""⟩ "***" =
      "My/Book_A:B.epub" ∧
    ((generate_filename ⟨"A:B", "My/Book", "", "", "", "", "", ""⟩ "***").toList.all
      (fun c => !invalidFileChars.contains c)) = false := by
  decide

/-- C6 (amended): placeholders are substituted, unsafe characters are stripped
from the rendered filename and `.epub` appended, and the result is free of unsafe
characters whenever the fallback does not fire; when the sanitized rendering is
empty, the fallback `"{title}_{author}.epub"` is returned built from the
unsanitized (trimmed) title and author. -/
theorem filename_sanitation_amended :
    generate_filename ⟨"A:B", "My/Book", "", "", "", "", "", ""⟩ "my*file" = "myfile.epub" ∧
    (∀ input : String,
      ((sanitize_filename_component input).toList.all
        (fun c => !invalidFileChars.contains c)) = true) ∧
    (∀ (bi : BookInfo) (template : String),
      sanitize_filename_component (substitutedTemplate bi template) ≠ "" →
      sanitize_filename_component (substitutedTemplate bi template) ≠ ".epub" →
      ((generate_filename bi template).toList.all
        (fun c => !invalidFileChars.contains c)) = true) ∧
    (∀ (bi : BookInfo) (template : String),
      sanitize_filename_component (substitutedTemplate bi template) = "" →
      generate_filename bi template = displayTitle bi ++ "_" ++ displayAuthor bi ++ ".epub") := by
  have hsan : ∀ input : String,
      ((sanitize_filename_component input).toList.all
        (fun c => !invalidFileChars.contains c)) = true := by
    intro input
    simp only [List.all_eq_true]
    intro c hc
    have hc2 : c ∈ trimL (input.data.filter (fun c => !invalidFileChars.contains c)) := hc
    exact (List.mem_filter.mp (mem_of_mem_trimL hc2)).2
  refine ⟨by decide, hsan, ?_, ?_⟩
  · intro bi template h1 h2
    by_cases hend : strEndsWith (sanitize_filename_component (substitutedTemplate bi template))
        ".epub" = true
    · have hbe : (sanitize_filename_component (substitutedTemplate bi template) == ".epub")
          = false := by
        simpa using h2
      simp only [generate_filename, hend, if_true, hbe, Bool.false_eq_true, if_false]
      exact hsan _
    · have happ : (sanitize_filename_component (substitutedTemplate bi template) ++ ".epub"
          == ".epub") = false := by
        rw [beq_eq_false_iff_ne]
        intro hx
        apply h1
        have hd : (sanitize_filename_component (substitutedTemplate bi template)).data
            ++ ".epub".data = ".epub".data := congrArg String.data hx
        have hlen := congrArg List.length hd
        rw [List.length_append] at hlen
        have h0 : (sanitize_filename_component (substitutedTemplate bi template)).data.length
            = 0 := by omega
        have hnil : (sanitize_filename_component (substitutedTemplate bi template)).data = [] :=
          List.length_eq_zero.mp h0
        calc sanitize_filename_component (substitutedTemplate bi template)
            = String.mk (sanitize_filename_component (substitutedTemplate bi template)).data :=
              rfl
          _ = String.mk [] := by rw [hnil]
      simp only [generate_filename, hend, Bool.false_eq_true, if_false, happ]
      have hdata : (sanitize_filename_component (substitutedTemplate bi template)
          ++ ".epub").toList =
          (sanitize_filename_component (substitutedTemplate bi template)).toList
            ++ ".epub".toList := rfl
      rw [hdata, List.all_append]
      rw [Bool.and_eq_true]
      exact ⟨hsan _, by decide⟩
  · intro bi template h
    simp only [generate_filename, h]
    rfl

/-- C6 witness: the non-fallback branch applied to the concrete inputs of the claim. -/
theorem filename_sanitation_amended_witness :
    ((generate_filename ⟨"A:B", "My/Book", "", "", "", "", "", ""⟩ "my*file").toList.all
      (fun c => !invalidFileChars.contains c)) = true :=
  filename_sanitation_amended.2.2.1 ⟨"A:B", "My/Book", "", "", "", "", "", ""⟩ "my*file"
    (by decide) (by decide)

/-! ### C7 -/

lemma simpleFold (lines : List String) :
    ∀ (res : List String) (cur : String),
      (∀ l ∈ lines, is_chapter_title_line (rustTrim l) = false) →
      lines.foldl simpleStep (res, cur) =
        (res, cur ++ strConcat (lines.map (fun l => rustTrim l ++ "\n"))) := by
  induction lines with
  | nil => intro res cur _; simp [strConcat]
  | cons l ls ih =>
    intro res cur h
    have hl : is_chapter_title_line (rustTrim l) = false := h l (List.mem_cons_self _ _)
    simp only [List.foldl_cons, List.map_cons, strConcat]
    rw [show simpleStep (res, cur) l = (res, cur ++ (rustTrim l ++ "\n")) from by
      simp [simpleStep, hl, String.append_assoc]]
    rw [ih res (cur ++ (rustTrim l ++ "\n")) (fun x hx => h x (List.mem_cons_of_mem _ hx))]
    rw [String.append_assoc]

/-- C7 counterexample: when no line is a title line, SimpleRules emits one draft
whose title is the first line of the text — not an empty or placeholder title. -/
theorem simple_rules_no_title_counterexample :
    split_to_drafts Pattern.SimpleRules "hello\nworld" =
      [{ title := "hello", content := "world" }] ∧
    ("hello" : String) ≠ "" ∧ ("hello" : String) ≠ "Untitled Chapter" := by
  decide

/-- C7 (amended): when no line of the normalized text is classified as a title
line and the accumulated text is non-blank, SimpleRules returns exactly one
chapter draft holding the whole normalized text, whose title is its first line. -/
theorem simple_rules_no_title_amended :
    ∀ text : String,
      (∀ l ∈ rustLines (cleanText text), is_chapter_title_line (rustTrim l) = false) →
      simpleRulesCollapsed text ≠ "" →
      split_to_drafts Pattern.SimpleRules text =
        [ChapterDraft.from_raw (simpleRulesCollapsed text)] := by
  intro text h hne
  have hfold := simpleFold (rustLines (cleanText text)) [] "" h
  rw [String.empty_append] at hfold
  simp only [split_to_drafts, split_by_pattern, split_by_simple_rules, hfold]
  have : rustTrim (strConcat ((rustLines (cleanText text)).map (fun l => rustTrim l ++ "\n")))
      = simpleRulesCollapsed text := rfl
  rw [this]
  simp [hne]

/-- C7 witness: the amended statement on a concrete title-less text. -/
theorem simple_rules_no_title_amended_witness :
    split_to_drafts Pattern.SimpleRules "only\nprose" =
      [ChapterDraft.from_raw (simpleRulesCollapsed "only\nprose")] :=
  simple_rules_no_title_amended "only\nprose" (by decide) (by decide)

/-! ### C8 -/

/-- C8 counterexample: a raw text whose first line is whitespace yields an empty
title, not the claimed non-empty/placeholder title. -/
theorem from_raw_empty_title_counterexample :
    (ChapterDraft.from_raw " \nx").title = "" := by
  decide

/-- C8 (amended): the constructed title is non-empty whenever the first line of
the raw text is non-blank; the `"Untitled Chapter"` placeholder fires only when
the raw text has no lines at all (the empty string). -/
theorem from_raw_title_amended :
    (∀ (raw l : String) (ls : List String),
      rustLines raw = l :: ls → rustTrim l ≠ "" →
      (ChapterDraft.from_raw raw).title ≠ "") ∧
    (ChapterDraft.from_raw "").title = "Untitled Chapter" := by
  constructor
  · intro raw l ls hl hne
    simp only [ChapterDraft.from_raw, hl, List.headD_cons]
    exact hne
  · decide

/-- C8 witness: the amended statement applied at a concrete raw text. -/
theorem from_raw_title_amended_witness :
    (ChapterDraft.from_raw "abc").title ≠ "" :=
  from_raw_title_amended.1 "abc" "abc" [] (by decide) (by decide)


/-! ### C9 -/

/-- C9: a paragraph whose first line carries a `[class=...]` marker (with
case-insensitive `class`, terminated by the first `]`, and a non-blank class
list) has that class list extracted and the marker stripped — the whole first
line is dropped when nothing follows the `]`, otherwise the remainder is kept —
and `render_chapter` applies the extracted classes to the `<p>` of that paragraph. -/
theorem inline_class_marker :
    (∀ (first : String) (rest : List String) (e : Nat),
      strStarts (asciiLower (rustTrimStart first)) "[class=" = true →
      charIdx (rustTrimStart first) ']' = some e →
      rustTrim (strSliceChars (rustTrimStart first) 7 e) ≠ "" →
      extract_marker_class (first :: rest) =
        (some (rustTrim (strSliceChars (rustTrimStart first) 7 e)),
         if rustTrimStart (strDropChars (rustTrimStart first) (e + 1)) = "" then rest
         else rustTrimStart (strDropChars (rustTrimStart first) (e + 1)) :: rest)) ∧
    strContains
      (render_chapter ⟨"T", "[class=note] hello"⟩ "zh" defaultStyle CssTemplate.Classic 1
        none false)
      "<p class=\"chapter-paragraph chapter-paragraph-first note\" style=\"text-indent: 0.00em;\">hello</p>"
      = true ∧
    strContains
      (render_chapter ⟨"T", "[class=note] hello"⟩ "zh" defaultStyle CssTemplate.Classic 1
        none false)
      "[class=" = false := by
  refine ⟨?_, by decide, by decide⟩
  intro first rest e h1 h2 h3
  have hcv : (rustTrim (strSliceChars (rustTrimStart first) 7 e) == "") = false := by
    simpa using h3
  by_cases hr : rustTrimStart (strDropChars (rustTrimStart first) (e + 1)) = ""
  · simp [extract_marker_class, h1, h2, hcv, hr]
  · simp [extract_marker_class, h1, h2, hcv, hr]

/-- C9 witness: the extraction equation applied at a concrete marker line. -/
theorem inline_class_marker_witness :
    extract_marker_class ["[class=note] hi"] =
      (some (rustTrim (strSliceChars (rustTrimStart "[class=note] hi") 7 11)),
       if rustTrimStart (strDropChars (rustTrimStart "[class=note] hi") (11 + 1)) = "" then []
       else rustTrimStart (strDropChars (rustTrimStart "[class=note] hi") (11 + 1)) :: []) :=
  inline_class_marker.1 "[class=note] hi" [] 11 (by decide) (by decide) (by decide)

/-! ### C10 -/

lemma escOkB_escChar (c : Char) (l : List Char) (h : escOkB l = true) :
    escOkB (escChar c ++ l) = true := by
  unfold escChar
  by_cases h1 : c = '&'
  · subst h1
    simp [escOkB, entityTailOk, List.isPrefixOf, h]
  · rw [if_neg h1]
    by_cases h2 : c = '<'
    · subst h2
      simp [escOkB, entityTailOk, List.isPrefixOf, h]
    · rw [if_neg h2]
      by_cases h3 : c = '>'
      · subst h3
        simp [escOkB, entityTailOk, List.isPrefixOf, h]
      · rw [if_neg h3]
        by_cases h4 : c = '"'
        · subst h4
          simp [escOkB, entityTailOk, List.isPrefixOf, h]
        · rw [if_neg h4]
          by_cases h5 : c = '\''
          · subst h5
            simp [escOkB, entityTailOk, List.isPrefixOf, h]
          · rw [if_neg h5]
            have b1 : (c == '<') = false := beq_eq_false_iff_ne.mpr h2
            have b2 : (c == '>') = false := beq_eq_false_iff_ne.mpr h3
            have b3 : (c == '"') = false := beq_eq_false_iff_ne.mpr h4
            have b4 : (c == '\'') = false := beq_eq_false_iff_ne.mpr h5
            have b5 : (c == '&') = false := beq_eq_false_iff_ne.mpr h1
            simp [escOkB, b1, b2, b3, b4, b5, h]

lemma escOkB_escListL (cs : List Char) : escOkB (escListL cs) = true := by
  induction cs with
  | nil => rfl
  | cons c rest ih => exact escOkB_escChar c _ ih

/-- C10: `render_chapter` is the concatenation of its pieces, where every dynamic
chunk coming from the chapter title or content is rendered through
`escape_html`; escaped text contains no raw `<`, `>`, `"` or `'` and every `&`
in it starts one of `&amp;`, `&lt;`, `&gt;`, `&quot;`, `&#39;`; on a chapter
whose title and body contain all five special characters, the output carries
only the escaped forms. -/
theorem render_chapter_escaping :
    (∀ (chapter : ChapterDraft) (language : String) (style : TextStyle)
        (template : CssTemplate) (chapter_index : Nat) (header_image : Option ImageAsset)
        (header_fullbleed : Bool),
      render_chapter chapter language style template chapter_index header_image
          header_fullbleed =
        String.join ((renderPieces chapter language style template chapter_index header_image
          header_fullbleed).map Piece.out)) ∧
    (∀ s : String, Piece.out (Piece.esc s) = escape_html s) ∧
    (∀ s : String, escOkB (escape_html s).toList = true) ∧
    (strContains
        (render_chapter ⟨"A<B&C", "x\"y\x27z>\n\na&b"⟩ "zh" defaultStyle CssTemplate.Classic 1
          none false) "A&lt;B&amp;C" = true ∧
      strContains
        (render_chapter ⟨"A<B&C", "x\"y\x27z>\n\na&b"⟩ "zh" defaultStyle CssTemplate.Classic 1
          none false) "A<B" = false ∧
      strContains
        (render_chapter ⟨"A<B&C", "x\"y\x27z>\n\na&b"⟩ "zh" defaultStyle CssTemplate.Classic 1
          none false) "x&quot;y&#39;z&gt;" = true ∧
      strContains
        (render_chapter ⟨"A<B&C", "x\"y\x27z>\n\na&b"⟩ "zh" defaultStyle CssTemplate.Classic 1
          none false) "a&amp;b" = true) :=
  ⟨fun _ _ _ _ _ _ _ => rfl, fun _ => rfl, fun s => escOkB_escListL s.toList, by decide⟩

end Reasypub
